import Mathlib

/-!
Shallow embedding of the process-management core of the os5 kernel
(`src/os5/src/task/info.rs`, `src/os5/src/task/manager.rs`,
`src/os5/src/syscall/process.rs`) and proofs of the specification
claims about it.

Machine integers are modelled as `Nat`/`Int`, with `% 2 ^ 64`
(resp. `% 2 ^ 32`) made explicit exactly where the Rust code wraps;
fallible operations return `Option`, and the reachable `unwrap` panic in
`TaskManager::fetch` is modelled by an explicit result constructor.
-/

/-- The scheduling key of `task/info.rs`: `pass` is the `u64`
virtual-runtime accumulator, `priority` the weight (`usize`), `round`
the `u32` wraparound-epoch counter. -/
structure Priority where
  pass : Nat
  priority : Nat
  round : Nat
  deriving DecidableEq, Repr

/-- `Priority::default` in `task/info.rs`: pass 0, weight 16, round 0. -/
def Priority.default : Priority := { pass := 0, priority := 16, round := 0 }

/-- `Priority::partial_cmp` of `task/info.rs` (named `partCmp` here):
compare `round` first, then `pass`; both branches produce `some`. -/
def Priority.partCmp (a b : Priority) : Option Ordering :=
  if a.round ≠ b.round then some (compare a.round b.round)
  else some (compare a.pass b.pass)

/-- `Priority::cmp` (the `Ord` impl), which `unwrap`s `partial_cmp`;
the `getD` default stands for the unreachable `unwrap` failure
(`partCmp_total` below shows it is never used). -/
def Priority.cmp (a b : Priority) : Ordering :=
  (a.partCmp b).getD Ordering.eq

/-- `Priority::update_pass` of `task/info.rs`, parametric in the
`BIG_PRIORITY` constant from the (external) config module:
`overflowing_add` of `(BIG_PRIORITY / priority) as u64` onto `pass`,
incrementing the `u32` `round` counter exactly when the addition wraps. -/
def Priority.update_pass (bigPriority : Nat) (p : Priority) : Priority :=
  { pass := (p.pass + (bigPriority / p.priority) % 2 ^ 64) % 2 ^ 64
    priority := p.priority
    round :=
      if 2 ^ 64 ≤ p.pass + (bigPriority / p.priority) % 2 ^ 64 then
        (p.round + 1) % 2 ^ 32
      else p.round }

/-- The strict ascending lexicographic order on `(round, pass)` that
`Priority::partial_cmp` implements. -/
def ltKey (a b : Priority) : Prop :=
  a.round < b.round ∨ (a.round = b.round ∧ a.pass < b.pass)

instance (a b : Priority) : Decidable (ltKey a b) := by
  unfold ltKey
  exact inferInstance

/-- The `Info` accounting record of `task/info.rs`: per-syscall counters,
start time, and the scheduling key. -/
structure Info where
  syscall_times : List Nat
  start_time : Nat
  priority : Priority
  deriving DecidableEq, Repr

/-- `Info::set_priority` of `task/info.rs`: overwrite the weight
component of the scheduling key only. -/
def Info.set_priority (i : Info) (p0 : Nat) : Info :=
  { i with priority := { i.priority with priority := p0 } }

/-- Task lifecycle status (`TaskStatus`). -/
inductive TaskStatus where
  | Ready
  | Running
  | Zombie
  deriving DecidableEq, Repr

/-- The fields of `TaskControlBlock` (together with its inner record)
that this core's claims touch: pid, trap-context register file `x`,
lifecycle status, exit code, and the accounting record. -/
structure TaskControlBlock where
  pid : Nat
  trap_x : List Nat
  task_status : TaskStatus
  exit_code : Int
  info : Info
  deriving DecidableEq, Repr

/-- `TaskControlBlockInner::is_zombie`: a pure predicate on the status. -/
def TaskControlBlock.is_zombie (t : TaskControlBlock) : Bool :=
  t.task_status = TaskStatus.Zombie

/-- Modelled from the spec: the `pass()` accessor of `TaskControlBlock`
used by `TaskManager::add` is outside the given sources; per spec
section 4.2 it reads the task's current `pass` component. -/
def TaskControlBlock.pass (t : TaskControlBlock) : Nat :=
  t.info.priority.pass

/-- Modelled from the spec: `set_priority` on `TaskControlBlock`
delegates to `Info::set_priority` on the task's accounting record
(spec section 4.1). -/
def TaskControlBlock.set_priority (t : TaskControlBlock) (p0 : Nat) :
    TaskControlBlock :=
  { t with info := t.info.set_priority p0 }

/-- One pass of `Iterator::min_by_key` over the enumerated queue:
the accumulator `(index, element)` is replaced exactly when its key
compares `Greater` than the candidate's key, so on exact ties the
earlier element is kept. -/
def minByFold (key : α → Priority) : Nat × α → Nat → List α → Nat × α
  | acc, _, [] => acc
  | acc, j, x :: xs =>
    minByFold key
      (if Priority.cmp (key acc.2) (key x) = Ordering.gt then (j, x) else acc)
      (j + 1) xs

/-- `iter().enumerate().min_by_key(...)` as called by
`TaskManager::fetch`: `none` on the empty queue, otherwise the
index/element pair with the first minimal key. -/
def minIdxByKey (key : α → Priority) : List α → Option (Nat × α)
  | [] => none
  | x :: xs => some (minByFold key (0, x) 1 xs)

/-- Result of `TaskManager::fetch`: either the `unwrap` panic
(`abort`), or an ordinary return of the removed task (if any) together
with the remaining queue. -/
inductive FetchResult (α : Type) where
  | abort : FetchResult α
  | ret : Option α → List α → FetchResult α
  deriving DecidableEq, Repr

/-- `TaskManager::add` of `task/manager.rs`: `push_front` when the
task's `pass` is 0, `push_back` otherwise. The queue is listed in
traversal (front-to-back) order. -/
def TaskManager.add (q : List TaskControlBlock) (t : TaskControlBlock) :
    List TaskControlBlock :=
  if t.pass = 0 then t :: q else q ++ [t]

/-- `TaskManager::fetch` of `task/manager.rs`: select the `min_by_key`
index under the task's `Priority` key, then `VecDeque::remove` it and
return the removed task; the `unwrap` on the `min_by_key` result aborts
when the queue is empty. -/
def TaskManager.fetch (q : List TaskControlBlock) :
    FetchResult TaskControlBlock :=
  match minIdxByKey (fun t => t.info.priority) q with
  | none => FetchResult.abort
  | some (i, _) => FetchResult.ret q[i]? (q.eraseIdx i)

/-- `sys_set_priority` of `syscall/process.rs`: reject `prio < 2` with
`-1`, otherwise store `prio as usize` as the weight (the cast is the
identity on the guard-admitted `isize` range) and echo `prio`. The
state threaded through is the calling task. -/
def sys_set_priority (t : TaskControlBlock) (prio : Int) :
    Int × TaskControlBlock :=
  if prio < 2 then (-1, t)
  else (prio, t.set_priority prio.toNat)

/-- Claim C10: `Priority` comparison is total — `partial_cmp` returns
`some` ordering for every pair of keys, so the `unwrap` inside the
`Ord::cmp` impl can never abort, and `cmp` yields exactly that
ordering. -/
theorem partCmp_total (a b : Priority) :
    ∃ o : Ordering, Priority.partCmp a b = some o ∧ Priority.cmp a b = o := by
  unfold Priority.cmp Priority.partCmp
  split <;> exact ⟨_, rfl, rfl⟩

/-- Claim C2 is refuted by the code: on the empty ready queue `fetch`
does not return `None` — `min_by_key` yields `None` and the `unwrap` on
it panics, recorded here as `FetchResult.abort`. -/
theorem fetch_empty_aborts :
    TaskManager.fetch [] = FetchResult.abort := rfl

/-- Claim C5: `sys_set_priority` returns `-1` and leaves the task
unchanged for `w < 2`; for `w ≥ 2` it returns `w`, stores `w` as the
weight, and leaves the accumulated `pass` and `round` unchanged. -/
theorem sys_set_priority_spec (t : TaskControlBlock) (w : Int) :
    (w < 2 → sys_set_priority t w = (-1, t)) ∧
    (2 ≤ w →
      (sys_set_priority t w).1 = w ∧
      ((sys_set_priority t w).2.info.priority.priority : Int) = w ∧
      (sys_set_priority t w).2.info.priority.pass = t.info.priority.pass ∧
      (sys_set_priority t w).2.info.priority.round = t.info.priority.round) := by
  constructor
  · intro h
    simp [sys_set_priority, h]
  · intro h
    have h2 : ¬ w < 2 := by omega
    refine ⟨by simp [sys_set_priority, h2], ?_, ?_, ?_⟩ <;>
      simp [sys_set_priority, h2, TaskControlBlock.set_priority,
        Info.set_priority] <;> omega

/-- Witness for `sys_set_priority_spec` at `w = 1` (rejected) and
`w = 5` (accepted) on a concrete task. -/
theorem sys_set_priority_spec_witness :
    ((1 : Int) < 2 ∧
      sys_set_priority ⟨3, [], TaskStatus.Ready, 0, ⟨[], 0, ⟨10, 16, 2⟩⟩⟩ 1 =
        (-1, ⟨3, [], TaskStatus.Ready, 0, ⟨[], 0, ⟨10, 16, 2⟩⟩⟩)) ∧
    ((2 : Int) ≤ 5 ∧
      ((sys_set_priority ⟨3, [], TaskStatus.Ready, 0, ⟨[], 0, ⟨10, 16, 2⟩⟩⟩ 5).1 = 5 ∧
        (((sys_set_priority ⟨3, [], TaskStatus.Ready, 0, ⟨[], 0, ⟨10, 16, 2⟩⟩⟩ 5).2.info.priority.priority : Int) = 5) ∧
        (sys_set_priority ⟨3, [], TaskStatus.Ready, 0, ⟨[], 0, ⟨10, 16, 2⟩⟩⟩ 5).2.info.priority.pass =
          (⟨3, [], TaskStatus.Ready, 0, ⟨[], 0, ⟨10, 16, 2⟩⟩⟩ : TaskControlBlock).info.priority.pass ∧
        (sys_set_priority ⟨3, [], TaskStatus.Ready, 0, ⟨[], 0, ⟨10, 16, 2⟩⟩⟩ 5).2.info.priority.round =
          (⟨3, [], TaskStatus.Ready, 0, ⟨[], 0, ⟨10, 16, 2⟩⟩⟩ : TaskControlBlock).info.priority.round)) :=
  ⟨⟨by norm_num, (sys_set_priority_spec _ 1).1 (by norm_num)⟩,
    ⟨by norm_num, (sys_set_priority_spec _ 5).2 (by norm_num)⟩⟩

/-- Claim C6: the scheduling key starts at `(round, pass) = (0, 0)`
(the default `Priority`), and `update_pass` with weight `w` adds
`BIG_STRIDE / w` to `pass` modulo `2 ^ 64`, incrementing `round` by
exactly 1 iff that 64-bit addition overflows and leaving it unchanged
otherwise. Hypotheses are the `u64`/`usize`/`u32` type bounds and the
positivity of the weight (the kernel keeps it at least 2). -/
theorem update_pass_spec (bigPriority : Nat) (p : Priority)
    (hpass : p.pass < 2 ^ 64) (hbig : bigPriority < 2 ^ 64)
    (hw : 0 < p.priority) (hround : p.round + 1 < 2 ^ 32) :
    Priority.default.round = 0 ∧ Priority.default.pass = 0 ∧
    (p.update_pass bigPriority).pass =
      (p.pass + bigPriority / p.priority) % 2 ^ 64 ∧
    ((p.update_pass bigPriority).round = p.round + 1 ↔
      2 ^ 64 ≤ p.pass + bigPriority / p.priority) ∧
    (p.pass + bigPriority / p.priority < 2 ^ 64 →
      (p.update_pass bigPriority).round = p.round) := by
  have hstr : (bigPriority / p.priority) % 2 ^ 64 = bigPriority / p.priority :=
    Nat.mod_eq_of_lt (lt_of_le_of_lt (Nat.div_le_self _ _) hbig)
  refine ⟨rfl, rfl, ?_, ?_, ?_⟩
  · simp only [Priority.update_pass, hstr]
  · simp only [Priority.update_pass, hstr]
    split <;> omega
  · intro hlt
    simp only [Priority.update_pass, hstr]
    split <;> omega

/-- Witness for `update_pass_spec`: a key about to overflow
(`pass = 2 ^ 64 - 100`, weight 2, round 7) with `BIG_STRIDE = 255`
wraps and bumps the round to 8. -/
theorem update_pass_spec_witness :
    ((2 : Nat) ^ 64 - 100 < 2 ^ 64 ∧ (255 : Nat) < 2 ^ 64 ∧
      (0 : Nat) < 2 ∧ (7 : Nat) + 1 < 2 ^ 32) ∧
    (Priority.default.round = 0 ∧ Priority.default.pass = 0 ∧
      ((⟨2 ^ 64 - 100, 2, 7⟩ : Priority).update_pass 255).pass =
        ((2 ^ 64 - 100) + 255 / 2) % 2 ^ 64 ∧
      (((⟨2 ^ 64 - 100, 2, 7⟩ : Priority).update_pass 255).round = 7 + 1 ↔
        2 ^ 64 ≤ (2 ^ 64 - 100) + 255 / 2) ∧
      ((2 ^ 64 - 100) + 255 / 2 < 2 ^ 64 →
        ((⟨2 ^ 64 - 100, 2, 7⟩ : Priority).update_pass 255).round = 7)) :=
  ⟨⟨by norm_num, by norm_num, by norm_num, by norm_num⟩,
    update_pass_spec 255 ⟨2 ^ 64 - 100, 2, 7⟩ (by norm_num) (by norm_num)
      (by norm_num) (by norm_num)⟩

lemma ltKey_irrefl (a : Priority) : ¬ ltKey a a := by
  unfold ltKey
  omega

lemma ltKey_asymm {a b : Priority} (h : ltKey a b) : ¬ ltKey b a := by
  unfold ltKey at h ⊢
  omega

lemma ltKey_trans {a b c : Priority} (h1 : ltKey a b) (h2 : ltKey b c) :
    ltKey a c := by
  unfold ltKey at h1 h2 ⊢
  omega

lemma ltKey_of_lt_of_nlt {a b c : Priority} (h1 : ltKey a b)
    (h2 : ¬ ltKey c b) : ltKey a c := by
  unfold ltKey at h1 h2 ⊢
  omega

lemma priCmp_gt_iff (a b : Priority) :
    Priority.cmp a b = Ordering.gt ↔ ltKey b a := by
  unfold Priority.cmp Priority.partCmp ltKey
  split
  · next h =>
    simp only [Option.getD_some, Nat.compare_eq_gt]
    omega
  · next h =>
    simp only [Option.getD_some, Nat.compare_eq_gt]
    omega

/-- Full behaviour of the `min_by_key` fold: either the accumulator
survives and its key is not beaten by any element of the remaining
list, or the fold ends on position `k` of the remaining list, whose key
strictly beats the accumulator's, is not beaten by any element, and
strictly beats every element before position `k`. -/
lemma minByFold_spec (key : α → Priority) :
    ∀ (xs : List α) (i0 j : Nat) (x0 : α),
      (minByFold key (i0, x0) j xs = (i0, x0) ∧
        ∀ m, (hm : m < xs.length) → ¬ ltKey (key xs[m]) (key x0)) ∨
      (∃ k, ∃ hk : k < xs.length,
        minByFold key (i0, x0) j xs = (j + k, xs[k]) ∧
        ltKey (key xs[k]) (key x0) ∧
        (∀ m, (hm : m < xs.length) → ¬ ltKey (key xs[m]) (key xs[k])) ∧
        (∀ m, (hm : m < xs.length) → m < k →
          ltKey (key xs[k]) (key xs[m]))) := by
  intro xs
  induction xs with
  | nil =>
    intro i0 j x0
    exact Or.inl ⟨rfl, fun m hm => absurd hm (Nat.not_lt_zero m)⟩
  | cons x xs ih =>
    intro i0 j x0
    by_cases hc : Priority.cmp (key x0) (key x) = Ordering.gt
    · have hlt : ltKey (key x) (key x0) := (priCmp_gt_iff _ _).mp hc
      have hstep : minByFold key (i0, x0) j (x :: xs) =
          minByFold key (j, x) (j + 1) xs := by
        simp [minByFold, hc]
      rcases ih j (j + 1) x with ⟨heq, hmin⟩ | ⟨k, hk, heq, hlt2, hmin, hfirst⟩
      · refine Or.inr ⟨0, by simp, ?_, ?_, ?_, ?_⟩
        · rw [hstep, heq]
          simp
        · simpa using hlt
        · intro m hm
          match m with
          | 0 => simpa using ltKey_irrefl (key x)
          | Nat.succ m2 =>
            have hm2 : m2 < xs.length := by
              simpa using Nat.lt_of_succ_lt_succ hm
            simpa using hmin m2 hm2
        · intro m hm hm0
          exact absurd hm0 (Nat.not_lt_zero m)
      · refine Or.inr ⟨k + 1, by simpa using Nat.succ_lt_succ hk, ?_, ?_, ?_, ?_⟩
        · rw [hstep, heq]
          simp [Nat.add_assoc, Nat.add_comm 1 k]
        · simpa using ltKey_trans hlt2 hlt
        · intro m hm
          match m with
          | 0 => simpa using ltKey_asymm hlt2
          | Nat.succ m2 =>
            have hm2 : m2 < xs.length := by
              simpa using Nat.lt_of_succ_lt_succ hm
            simpa using hmin m2 hm2
        · intro m hm hmk
          match m with
          | 0 => simpa using hlt2
          | Nat.succ m2 =>
            have hm2 : m2 < xs.length := by
              simpa using Nat.lt_of_succ_lt_succ hm
            have hm2k : m2 < k := Nat.lt_of_succ_lt_succ hmk
            simpa using hfirst m2 hm2 hm2k
    · have hnlt : ¬ ltKey (key x) (key x0) := fun h =>
        hc ((priCmp_gt_iff _ _).mpr h)
      have hstep : minByFold key (i0, x0) j (x :: xs) =
          minByFold key (i0, x0) (j + 1) xs := by
        simp [minByFold, hc]
      rcases ih i0 (j + 1) x0 with ⟨heq, hmin⟩ | ⟨k, hk, heq, hlt2, hmin, hfirst⟩
      · refine Or.inl ⟨by rw [hstep, heq], ?_⟩
        intro m hm
        match m with
        | 0 => simpa using hnlt
        | Nat.succ m2 =>
          have hm2 : m2 < xs.length := by
            simpa using Nat.lt_of_succ_lt_succ hm
          simpa using hmin m2 hm2
      · have hxk : ltKey (key xs[k]) (key x) := ltKey_of_lt_of_nlt hlt2 hnlt
        refine Or.inr ⟨k + 1, by simpa using Nat.succ_lt_succ hk, ?_, ?_, ?_, ?_⟩
        · rw [hstep, heq]
          simp [Nat.add_assoc, Nat.add_comm 1 k]
        · simpa using hlt2
        · intro m hm
          match m with
          | 0 => simpa using ltKey_asymm hxk
          | Nat.succ m2 =>
            have hm2 : m2 < xs.length := by
              simpa using Nat.lt_of_succ_lt_succ hm
            simpa using hmin m2 hm2
        · intro m hm hmk
          match m with
          | 0 => simpa using hxk
          | Nat.succ m2 =>
            have hm2 : m2 < xs.length := by
              simpa using Nat.lt_of_succ_lt_succ hm
            have hm2k : m2 < k := Nat.lt_of_succ_lt_succ hmk
            simpa using hfirst m2 hm2 hm2k

/-- Claim C1: on every non-empty ready queue, `fetch` removes and
returns a task whose `(round, pass)` key is minimal under the ascending
lexicographic order (`ltKey`), and on exact key ties the first
occurrence in traversal order is removed: every earlier task's key is
strictly greater. -/
theorem fetch_min (q : List TaskControlBlock) (hq : q ≠ []) :
    ∃ i, ∃ hi : i < q.length,
      TaskManager.fetch q = FetchResult.ret (some q[i]) (q.eraseIdx i) ∧
      (∀ j, (hj : j < q.length) →
        ¬ ltKey q[j].info.priority q[i].info.priority) ∧
      (∀ j, (hj : j < q.length) → j < i →
        ltKey q[i].info.priority q[j].info.priority) := by
  match q with
  | [] => exact absurd rfl hq
  | x :: xs =>
    rcases minByFold_spec (fun t : TaskControlBlock => t.info.priority) xs 0 1 x
      with ⟨heq, hmin⟩ | ⟨k, hk, heq, hlt2, hmin, hfirst⟩
    · refine ⟨0, by simp, ?_, ?_, ?_⟩
      · simp [TaskManager.fetch, minIdxByKey, heq]
      · intro j hj
        match j with
        | 0 => simpa using ltKey_irrefl x.info.priority
        | Nat.succ j2 =>
          have hj2 : j2 < xs.length := by
            simpa using Nat.lt_of_succ_lt_succ hj
          simpa using hmin j2 hj2
      · intro j hj hj0
        exact absurd hj0 (Nat.not_lt_zero j)
    · refine ⟨k + 1, by simpa using Nat.succ_lt_succ hk, ?_, ?_, ?_⟩
      · have h1k : 1 + k = k + 1 := Nat.add_comm 1 k
        rw [h1k] at heq
        simp [TaskManager.fetch, minIdxByKey, heq,
          List.getElem?_eq_getElem (by simpa using Nat.succ_lt_succ hk :
            k + 1 < (x :: xs).length)]
      · intro j hj
        match j with
        | 0 => simpa using ltKey_asymm hlt2
        | Nat.succ j2 =>
          have hj2 : j2 < xs.length := by
            simpa using Nat.lt_of_succ_lt_succ hj
          simpa using hmin j2 hj2
      · intro j hj hjk
        match j with
        | 0 => simpa using hlt2
        | Nat.succ j2 =>
          have hj2 : j2 < xs.length := by
            simpa using Nat.lt_of_succ_lt_succ hj
          have hj2k : j2 < k := Nat.lt_of_succ_lt_succ hjk
          simpa using hfirst j2 hj2 hj2k

/-- Witness for `fetch_min` on the concrete queue
`[task pid 1 with pass 3, task pid 2 with pass 1]`: the queue is
non-empty and the selection property holds (the winner is index 1). -/
theorem fetch_min_witness :
    ([⟨1, [], TaskStatus.Ready, 0, ⟨[], 0, ⟨3, 16, 0⟩⟩⟩,
      ⟨2, [], TaskStatus.Ready, 0, ⟨[], 0, ⟨1, 16, 0⟩⟩⟩] :
        List TaskControlBlock) ≠ [] ∧
    ∃ i, ∃ hi : i < ([⟨1, [], TaskStatus.Ready, 0, ⟨[], 0, ⟨3, 16, 0⟩⟩⟩,
      ⟨2, [], TaskStatus.Ready, 0, ⟨[], 0, ⟨1, 16, 0⟩⟩⟩] :
        List TaskControlBlock).length,
      TaskManager.fetch [⟨1, [], TaskStatus.Ready, 0, ⟨[], 0, ⟨3, 16, 0⟩⟩⟩,
          ⟨2, [], TaskStatus.Ready, 0, ⟨[], 0, ⟨1, 16, 0⟩⟩⟩] =
        FetchResult.ret
          (some ([⟨1, [], TaskStatus.Ready, 0, ⟨[], 0, ⟨3, 16, 0⟩⟩⟩,
            ⟨2, [], TaskStatus.Ready, 0, ⟨[], 0, ⟨1, 16, 0⟩⟩⟩] :
              List TaskControlBlock)[i])
          (([⟨1, [], TaskStatus.Ready, 0, ⟨[], 0, ⟨3, 16, 0⟩⟩⟩,
            ⟨2, [], TaskStatus.Ready, 0, ⟨[], 0, ⟨1, 16, 0⟩⟩⟩] :
              List TaskControlBlock).eraseIdx i) ∧
      (∀ j, (hj : j < ([⟨1, [], TaskStatus.Ready, 0, ⟨[], 0, ⟨3, 16, 0⟩⟩⟩,
          ⟨2, [], TaskStatus.Ready, 0, ⟨[], 0, ⟨1, 16, 0⟩⟩⟩] :
            List TaskControlBlock).length) →
        ¬ ltKey ([⟨1, [], TaskStatus.Ready, 0, ⟨[], 0, ⟨3, 16, 0⟩⟩⟩,
            ⟨2, [], TaskStatus.Ready, 0, ⟨[], 0, ⟨1, 16, 0⟩⟩⟩] :
              List TaskControlBlock)[j].info.priority
          ([⟨1, [], TaskStatus.Ready, 0, ⟨[], 0, ⟨3, 16, 0⟩⟩⟩,
            ⟨2, [], TaskStatus.Ready, 0, ⟨[], 0, ⟨1, 16, 0⟩⟩⟩] :
              List TaskControlBlock)[i].info.priority) ∧
      (∀ j, (hj : j < ([⟨1, [], TaskStatus.Ready, 0, ⟨[], 0, ⟨3, 16, 0⟩⟩⟩,
          ⟨2, [], TaskStatus.Ready, 0, ⟨[], 0, ⟨1, 16, 0⟩⟩⟩] :
            List TaskControlBlock).length) → j < i →
        ltKey ([⟨1, [], TaskStatus.Ready, 0, ⟨[], 0, ⟨3, 16, 0⟩⟩⟩,
            ⟨2, [], TaskStatus.Ready, 0, ⟨[], 0, ⟨1, 16, 0⟩⟩⟩] :
              List TaskControlBlock)[i].info.priority
          ([⟨1, [], TaskStatus.Ready, 0, ⟨[], 0, ⟨3, 16, 0⟩⟩⟩,
            ⟨2, [], TaskStatus.Ready, 0, ⟨[], 0, ⟨1, 16, 0⟩⟩⟩] :
              List TaskControlBlock)[j].info.priority) :=
  ⟨by simp, fetch_min _ (by simp)⟩

/-- Claim C4: `TaskManager::add` places a task with `pass = 0` at the
traversal-front and every other task at the traversal-back; as a
consequence, after adding two tasks `A` then `B` that both carry the
key `(round, pass) = (0, 0)`, an immediately following `fetch` removes
and returns `B` (the most recent zero-pass insertion), leaving `A`
and the rest of the queue. -/
theorem add_tiebreak (q : List TaskControlBlock) (t A B : TaskControlBlock) :
    (t.pass = 0 → TaskManager.add q t = t :: q) ∧
    (t.pass ≠ 0 → TaskManager.add q t = q ++ [t]) ∧
    (A.info.priority.pass = 0 → B.info.priority.round = 0 →
      B.info.priority.pass = 0 →
      TaskManager.fetch (TaskManager.add (TaskManager.add q A) B) =
        FetchResult.ret (some B) (A :: q)) := by
  refine ⟨fun h => by simp [TaskManager.add, h],
    fun h => by simp [TaskManager.add, h], ?_⟩
  intro hA hBr hBp
  have hA2 : TaskManager.add q A = A :: q := by
    simp [TaskManager.add, TaskControlBlock.pass, hA]
  have hB2 : TaskManager.add (A :: q) B = B :: A :: q := by
    simp [TaskManager.add, TaskControlBlock.pass, hBp]
  rw [hA2, hB2]
  rcases minByFold_spec (fun t : TaskControlBlock => t.info.priority) (A :: q)
      0 1 B with ⟨heq, hmin⟩ | ⟨k, hk, heq, hlt2, hmin, hfirst⟩
  · simp [TaskManager.fetch, minIdxByKey, heq]
  · exfalso
    unfold ltKey at hlt2
    rw [hBr, hBp] at hlt2
    omega

/-- Witness for `add_tiebreak`: two concrete tasks with key `(0, 0)`
added in order `A` (pid 1) then `B` (pid 2) onto the empty queue; the
following `fetch` returns `B` and leaves `[A]`. -/
theorem add_tiebreak_witness :
    ((⟨1, [], TaskStatus.Ready, 0, ⟨[], 0, ⟨0, 16, 0⟩⟩⟩ :
        TaskControlBlock).info.priority.pass = 0 ∧
      (⟨2, [], TaskStatus.Ready, 0, ⟨[], 0, ⟨0, 16, 0⟩⟩⟩ :
        TaskControlBlock).info.priority.round = 0 ∧
      (⟨2, [], TaskStatus.Ready, 0, ⟨[], 0, ⟨0, 16, 0⟩⟩⟩ :
        TaskControlBlock).info.priority.pass = 0) ∧
    TaskManager.fetch (TaskManager.add
        (TaskManager.add [] ⟨1, [], TaskStatus.Ready, 0, ⟨[], 0, ⟨0, 16, 0⟩⟩⟩)
        ⟨2, [], TaskStatus.Ready, 0, ⟨[], 0, ⟨0, 16, 0⟩⟩⟩) =
      FetchResult.ret (some ⟨2, [], TaskStatus.Ready, 0, ⟨[], 0, ⟨0, 16, 0⟩⟩⟩)
        [⟨1, [], TaskStatus.Ready, 0, ⟨[], 0, ⟨0, 16, 0⟩⟩⟩] :=
  ⟨⟨rfl, rfl, rfl⟩,
    (add_tiebreak [] ⟨1, [], TaskStatus.Ready, 0, ⟨[], 0, ⟨0, 16, 0⟩⟩⟩
      ⟨1, [], TaskStatus.Ready, 0, ⟨[], 0, ⟨0, 16, 0⟩⟩⟩
      ⟨2, [], TaskStatus.Ready, 0, ⟨[], 0, ⟨0, 16, 0⟩⟩⟩).2.2 rfl rfl rfl⟩

/-- The waitpid target filter from `sys_waitpid`
(`pid == -1 || pid as usize == p.getpid()`): the `as usize` cast is
two's-complement reinterpretation of the `isize`, i.e. reduction
modulo `2 ^ 64`. -/
def matchFilter (pid : Int) (c : TaskControlBlock) : Bool :=
  pid == -1 || (pid % 2 ^ 64).toNat == c.pid

/-- `iter().enumerate().find(...)`: index of, and the element at, the
first position satisfying the predicate. -/
def findEnum (p : α → Bool) : Nat → List α → Option (Nat × α)
  | _, [] => none
  | i, x :: xs => if p x then some (i, x) else findEnum p (i + 1) xs

/-- `sys_waitpid` of `syscall/process.rs`, acting on the calling task's
children list: returns the syscall result, the remaining children, and
the exit code written through `exit_code_ptr` via the caller's
address-space translation (`none` when nothing is written). -/
def sys_waitpid (children : List TaskControlBlock) (pid : Int) :
    Int × List TaskControlBlock × Option Int :=
  if !(children.any fun c => matchFilter pid c) then (-1, children, none)
  else
    match findEnum (fun c => c.is_zombie && matchFilter pid c) 0 children with
    | some (i, c) => ((c.pid : Int), children.eraseIdx i, some c.exit_code)
    | none => (-2, children, none)

lemma findEnum_eq_none {p : α → Bool} :
    ∀ (l : List α) (i : Nat), (∀ x ∈ l, p x = false) →
      findEnum p i l = none := by
  intro l
  induction l with
  | nil => intro i _; rfl
  | cons x xs ih =>
    intro i h
    have hx : p x = false := h x (List.mem_cons_self x xs)
    simp only [findEnum, hx, Bool.false_eq_true, if_false]
    exact ih (i + 1) fun y hy => h y (List.mem_cons_of_mem x hy)

lemma findEnum_eq_some {p : α → Bool} :
    ∀ (l : List α) (i k : Nat) (x : α), findEnum p i l = some (k, x) →
      ∃ m, ∃ hm : m < l.length, k = i + m ∧ x = l[m] ∧ p x = true := by
  intro l
  induction l with
  | nil => intro i k x h; exact absurd h (by simp [findEnum])
  | cons y ys ih =>
    intro i k x h
    by_cases hy : p y = true
    · have : some (i, y) = some (k, x) := by
        simpa [findEnum, hy] using h
      have hik : i = k ∧ y = x := by
        constructor <;> [exact congrArg (fun z => z.1) (Option.some.inj this);
          exact congrArg (fun z => z.2) (Option.some.inj this)]
      refine ⟨0, by simp, by omega, ?_, ?_⟩
      · simpa using hik.2.symm
      · rw [← hik.2]; exact hy
    · have hrec : findEnum p (i + 1) ys = some (k, x) := by
        simpa [findEnum, hy] using h
      obtain ⟨m, hm, hk, hx, hp⟩ := ih (i + 1) k x hrec
      refine ⟨m + 1, by simpa using Nat.succ_lt_succ hm, by omega, ?_, hp⟩
      simpa using hx

lemma findEnum_isSome {p : α → Bool} :
    ∀ (l : List α) (i : Nat) (x : α), x ∈ l → p x = true →
      (findEnum p i l).isSome = true := by
  intro l
  induction l with
  | nil => intro i x hx _; exact absurd hx (List.not_mem_nil x)
  | cons y ys ih =>
    intro i x hx hp
    by_cases hy : p y = true
    · simp [findEnum, hy]
    · rcases List.mem_cons.mp hx with rfl | hx2
      · exact absurd hp hy
      · simpa [findEnum, hy] using ih (i + 1) x hx2 hp

lemma sys_waitpid_no_match {children : List TaskControlBlock} {pid : Int}
    (h : ∀ c ∈ children, matchFilter pid c = false) :
    sys_waitpid children pid = (-1, children, none) := by
  have hany : (children.any fun c => matchFilter pid c) = false := by
    simp only [List.any_eq_false]
    intro c hc
    simp [h c hc]
  simp [sys_waitpid, hany]

/-- Claim C3: `sys_waitpid` returns `-1` and removes no child when the
filter (`-1` is the wildcard, otherwise an exact pid) matches no child;
returns `-2` and removes no child when some child matches but no
matching child is a zombie; otherwise removes exactly one matching
zombie child (the first in list order), writes its exit code through
the caller's translated pointer, and returns its pid. -/
theorem sys_waitpid_spec (children : List TaskControlBlock) (pid : Int) :
    ((∀ c ∈ children, matchFilter pid c = false) →
      sys_waitpid children pid = (-1, children, none)) ∧
    ((∃ c ∈ children, matchFilter pid c = true) →
      (∀ c ∈ children, matchFilter pid c = true → c.is_zombie = false) →
      sys_waitpid children pid = (-2, children, none)) ∧
    ((∃ c ∈ children, matchFilter pid c = true ∧ c.is_zombie = true) →
      ∃ i, ∃ hi : i < children.length,
        matchFilter pid children[i] = true ∧ children[i].is_zombie = true ∧
        sys_waitpid children pid =
          ((children[i].pid : Int), children.eraseIdx i,
            some children[i].exit_code)) := by
  refine ⟨fun h => sys_waitpid_no_match h, ?_, ?_⟩
  · rintro ⟨c, hc, hmc⟩ h2
    have hany : (children.any fun c => matchFilter pid c) = true := by
      simp only [List.any_eq_true]
      exact ⟨c, hc, hmc⟩
    have hpred : ∀ x ∈ children, (x.is_zombie && matchFilter pid x) = false := by
      intro x hx
      cases hmx : matchFilter pid x with
      | false => simp [hmx]
      | true => simp [hmx, h2 x hx hmx]
    rw [sys_waitpid]
    simp only [hany, Bool.not_true, Bool.false_eq_true, if_false]
    rw [findEnum_eq_none children 0 hpred]
  · rintro ⟨c, hc, hmc, hzc⟩
    have hany : (children.any fun c => matchFilter pid c) = true := by
      simp only [List.any_eq_true]
      exact ⟨c, hc, hmc⟩
    have hpc : (c.is_zombie && matchFilter pid c) = true := by
      simp [hmc, hzc]
    have hsome := @findEnum_isSome _ (fun x => x.is_zombie && matchFilter pid x)
      children 0 c hc hpc
    obtain ⟨⟨k, x⟩, hkx⟩ := Option.isSome_iff_exists.mp hsome
    obtain ⟨m, hm, hk, hx, hp⟩ := findEnum_eq_some children 0 k x hkx
    have hkm : k = m := by omega
    subst hkm
    have hand : x.is_zombie = true ∧ matchFilter pid x = true := by
      simpa [Bool.and_eq_true] using hp
    have hzx : x.is_zombie = true := hand.1
    have hmx : matchFilter pid x = true := hand.2
    refine ⟨k, hm, by rw [← hx]; exact hmx, by rw [← hx]; exact hzx, ?_⟩
    rw [sys_waitpid]
    simp only [hany, Bool.not_true, Bool.false_eq_true, if_false, hkx]
    rw [← hx]

/-- Witness for `sys_waitpid_spec`: with one Running child of pid 5,
waiting for pid 7 gives `-1` and waiting for pid 5 gives `-2`; with one
Zombie child of pid 5 and exit code 7, waiting for `-1` (wildcard)
reaps it. -/
theorem sys_waitpid_spec_witness :
    ((∀ c ∈ ([⟨5, [], TaskStatus.Running, 0, ⟨[], 0, ⟨0, 16, 0⟩⟩⟩] :
        List TaskControlBlock), matchFilter 7 c = false) ∧
      sys_waitpid [⟨5, [], TaskStatus.Running, 0, ⟨[], 0, ⟨0, 16, 0⟩⟩⟩] 7 =
        (-1, [⟨5, [], TaskStatus.Running, 0, ⟨[], 0, ⟨0, 16, 0⟩⟩⟩], none)) ∧
    ((∃ c ∈ ([⟨5, [], TaskStatus.Running, 0, ⟨[], 0, ⟨0, 16, 0⟩⟩⟩] :
        List TaskControlBlock), matchFilter 5 c = true) ∧
      (∀ c ∈ ([⟨5, [], TaskStatus.Running, 0, ⟨[], 0, ⟨0, 16, 0⟩⟩⟩] :
        List TaskControlBlock), matchFilter 5 c = true → c.is_zombie = false) ∧
      sys_waitpid [⟨5, [], TaskStatus.Running, 0, ⟨[], 0, ⟨0, 16, 0⟩⟩⟩] 5 =
        (-2, [⟨5, [], TaskStatus.Running, 0, ⟨[], 0, ⟨0, 16, 0⟩⟩⟩], none)) ∧
    ((∃ c ∈ ([⟨5, [], TaskStatus.Zombie, 7, ⟨[], 0, ⟨0, 16, 0⟩⟩⟩] :
        List TaskControlBlock), matchFilter (-1) c = true ∧ c.is_zombie = true) ∧
      ∃ i, ∃ hi : i < ([⟨5, [], TaskStatus.Zombie, 7, ⟨[], 0, ⟨0, 16, 0⟩⟩⟩] :
          List TaskControlBlock).length,
        matchFilter (-1) ([⟨5, [], TaskStatus.Zombie, 7, ⟨[], 0, ⟨0, 16, 0⟩⟩⟩] :
          List TaskControlBlock)[i] = true ∧
        ([⟨5, [], TaskStatus.Zombie, 7, ⟨[], 0, ⟨0, 16, 0⟩⟩⟩] :
          List TaskControlBlock)[i].is_zombie = true ∧
        sys_waitpid [⟨5, [], TaskStatus.Zombie, 7, ⟨[], 0, ⟨0, 16, 0⟩⟩⟩] (-1) =
          ((([⟨5, [], TaskStatus.Zombie, 7, ⟨[], 0, ⟨0, 16, 0⟩⟩⟩] :
              List TaskControlBlock)[i].pid : Int),
            ([⟨5, [], TaskStatus.Zombie, 7, ⟨[], 0, ⟨0, 16, 0⟩⟩⟩] :
              List TaskControlBlock).eraseIdx i,
            some ([⟨5, [], TaskStatus.Zombie, 7, ⟨[], 0, ⟨0, 16, 0⟩⟩⟩] :
              List TaskControlBlock)[i].exit_code)) :=
  ⟨⟨by decide, (sys_waitpid_spec [⟨5, [], TaskStatus.Running, 0,
      ⟨[], 0, ⟨0, 16, 0⟩⟩⟩] 7).1 (by decide)⟩,
    ⟨by decide, by decide, (sys_waitpid_spec [⟨5, [], TaskStatus.Running, 0,
      ⟨[], 0, ⟨0, 16, 0⟩⟩⟩] 5).2.1 (by decide) (by decide)⟩,
    ⟨by decide, (sys_waitpid_spec [⟨5, [], TaskStatus.Zombie, 7,
      ⟨[], 0, ⟨0, 16, 0⟩⟩⟩] (-1)).2.2 (by decide)⟩⟩

/-- Claim C9: a pid argument strictly below `-1` (within the `isize`
range, with children pids in the valid `usize`-allocation range below
`2 ^ 63`) is converted by `as usize` to a huge unsigned value, matches
no child, and makes `sys_waitpid` return `-1` removing nothing; only
the exact value `-1` is the wildcard. -/
theorem sys_waitpid_neg_pid (children : List TaskControlBlock) (pid : Int)
    (h1 : pid < -1) (h2 : -(2 ^ 63) ≤ pid)
    (h3 : ∀ c ∈ children, c.pid < 2 ^ 63) :
    sys_waitpid children pid = (-1, children, none) := by
  apply sys_waitpid_no_match
  intro c hc
  have hne : pid ≠ -1 := by omega
  have hlt : c.pid < 2 ^ 63 := h3 c hc
  have hne2 : (pid == -1) = false := by
    simpa using hne
  simp only [matchFilter, hne2, Bool.false_or, beq_eq_false_iff_ne, ne_eq]
  omega

/-- Witness for `sys_waitpid_neg_pid`: `pid = -2` against a single
zombie child with pid 5 returns `-1` and removes nothing. -/
theorem sys_waitpid_neg_pid_witness :
    ((-2 : Int) < -1 ∧ -(2 ^ 63) ≤ (-2 : Int) ∧
      (∀ c ∈ ([⟨5, [], TaskStatus.Zombie, 7, ⟨[], 0, ⟨0, 16, 0⟩⟩⟩] :
        List TaskControlBlock), c.pid < 2 ^ 63)) ∧
    sys_waitpid [⟨5, [], TaskStatus.Zombie, 7, ⟨[], 0, ⟨0, 16, 0⟩⟩⟩] (-2) =
      (-1, [⟨5, [], TaskStatus.Zombie, 7, ⟨[], 0, ⟨0, 16, 0⟩⟩⟩], none) :=
  ⟨⟨by norm_num, by norm_num, by decide⟩,
    sys_waitpid_neg_pid [⟨5, [], TaskStatus.Zombie, 7, ⟨[], 0, ⟨0, 16, 0⟩⟩⟩]
      (-2) (by norm_num) (by norm_num) (by decide)⟩

/-- Modelled from the spec: the mm layer's `MapPermission` bit flags
(read / write / execute / user), opaque to this core beyond
construction. -/
structure MapPermission where
  r : Bool
  w : Bool
  x : Bool
  u : Bool
  deriving DecidableEq, Repr

/-- `change_port_to_permission` of `syscall/process.rs`: decode the
3-bit `port` field into a user permission, `none` for any value outside
`1..=7`. -/
def change_port_to_permission (port : Nat) : Option MapPermission :=
  match port with
  | 1 => some ⟨true, false, false, true⟩
  | 2 => some ⟨false, true, false, true⟩
  | 4 => some ⟨false, false, true, true⟩
  | 3 => some ⟨true, true, false, true⟩
  | 5 => some ⟨true, false, true, true⟩
  | 6 => some ⟨false, true, true, true⟩
  | 7 => some ⟨true, true, true, true⟩
  | _ => none

/-- Modelled from the spec: the mm layer's page size (section 4.3's
examples are `0x1000`-aligned). -/
def PAGE_SIZE : Nat := 4096

/-- Modelled from the spec: `VirtAddr::aligned`, true exactly on page
boundaries. -/
def VirtAddr.aligned (va : Nat) : Bool := va % PAGE_SIZE == 0

/-- `sys_mmap` of `syscall/process.rs`, parametric in the mm layer's
`insert_framed_area_check` (outside src; per spec section 4.3 it
succeeds iff the new mapping does not overlap an existing one): decode
`port`, check page alignment of `start`, then insert
`[start, start + len)`; `0` on success, `-1` on any failure. The
rejections for a bad `port` or a misaligned `start` happen before the
address space is consulted. -/
def sys_mmap (insertOk : Nat → Nat → MapPermission → Bool)
    (start len port : Nat) : Int :=
  match change_port_to_permission port with
  | none => -1
  | some perm =>
    if !(VirtAddr.aligned start) then -1
    else if insertOk start (start + len) perm then 0 else -1

lemma change_port_eq_none {port : Nat} (h : port = 0 ∨ 8 ≤ port) :
    change_port_to_permission port = none := by
  rcases h with h | h
  · subst h; rfl
  · obtain ⟨n, rfl⟩ : ∃ n, port = n + 8 := ⟨port - 8, by omega⟩
    rfl

lemma change_port_isSome {port : Nat} (h1 : 1 ≤ port) (h2 : port ≤ 7) :
    ∃ perm, change_port_to_permission port = some perm := by
  interval_cases port <;> exact ⟨_, rfl⟩

/-- Claim C7: `sys_mmap` returns `-1` whenever `port` is outside
`{1, ..., 7}` or `start` is not page-aligned — in both cases for every
possible mm-layer behaviour, i.e. before touching the address space —
and otherwise returns `0` exactly when the mm layer inserts the mapping
over `[start, start + len)`, `-1` when the insertion fails. -/
theorem sys_mmap_spec (insertOk : Nat → Nat → MapPermission → Bool)
    (start len port : Nat) :
    ((port = 0 ∨ 8 ≤ port) → sys_mmap insertOk start len port = -1) ∧
    (¬ start % PAGE_SIZE = 0 → sys_mmap insertOk start len port = -1) ∧
    (1 ≤ port → port ≤ 7 → start % PAGE_SIZE = 0 →
      ∃ perm, change_port_to_permission port = some perm ∧
        (sys_mmap insertOk start len port = 0 ↔
          insertOk start (start + len) perm = true) ∧
        (sys_mmap insertOk start len port = -1 ↔
          insertOk start (start + len) perm = false)) := by
  refine ⟨?_, ?_, ?_⟩
  · intro h
    simp [sys_mmap, change_port_eq_none h]
  · intro h
    have ha : VirtAddr.aligned start = false := by
      simp [VirtAddr.aligned, h]
    cases hp : change_port_to_permission port with
    | none => simp [sys_mmap, hp]
    | some perm => simp [sys_mmap, hp, ha]
  · intro h1 h2 h3
    obtain ⟨perm, hp⟩ := change_port_isSome h1 h2
    have ha : VirtAddr.aligned start = true := by
      simp [VirtAddr.aligned, h3]
    refine ⟨perm, hp, ?_, ?_⟩ <;>
      cases hins : insertOk start (start + len) perm <;>
        simp [sys_mmap, hp, ha, hins]

/-- Witness for `sys_mmap_spec`, mirroring the spec's test vector: with
an mm layer that accepts everything, `port = 8` fails, `start = 0x1001`
fails, and `(0x1000, 0x1000, 3)` succeeds with `0` (and fails with `-1`
under an mm layer that rejects, e.g. on overlap). -/
theorem sys_mmap_spec_witness :
    (((8 : Nat) = 0 ∨ 8 ≤ 8) ∧
      sys_mmap (fun _ _ _ => true) 4096 4096 8 = -1) ∧
    (¬ (4097 : Nat) % PAGE_SIZE = 0 ∧
      sys_mmap (fun _ _ _ => true) 4097 4096 3 = -1) ∧
    ((1 : Nat) ≤ 3 ∧ (3 : Nat) ≤ 7 ∧ (4096 : Nat) % PAGE_SIZE = 0 ∧
      sys_mmap (fun _ _ _ => true) 4096 4096 3 = 0 ∧
      sys_mmap (fun _ _ _ => false) 4096 4096 3 = -1) :=
  ⟨⟨Or.inr (by norm_num),
      (sys_mmap_spec (fun _ _ _ => true) 4096 4096 8).1 (Or.inr (by norm_num))⟩,
    ⟨by decide,
      (sys_mmap_spec (fun _ _ _ => true) 4097 4096 3).2.1 (by decide)⟩,
    ⟨by norm_num, by norm_num, by decide, by
      obtain ⟨perm, hp, hiff0, _⟩ :=
        (sys_mmap_spec (fun _ _ _ => true) 4096 4096 3).2.2 (by norm_num)
          (by norm_num) (by decide)
      exact hiff0.mpr rfl, by
      obtain ⟨perm, hp, _, hiff1⟩ :=
        (sys_mmap_spec (fun _ _ _ => false) 4096 4096 3).2.2 (by norm_num)
          (by norm_num) (by decide)
      exact hiff1.mpr rfl⟩⟩

/-- `sys_fork` of `syscall/process.rs`. Modelled from the spec:
`TaskControlBlock::fork` (spec section 4.1) builds the duplicate child
outside the given sources, so the child it produces is a parameter
here. The handler then zeroes the child's syscall-return register
`x[10]`, enqueues the child via `add_task`, and returns the child's pid
to the parent. -/
def sys_fork (child : TaskControlBlock) (queue : List TaskControlBlock) :
    Int × TaskControlBlock × List TaskControlBlock :=
  let child2 : TaskControlBlock := { child with trap_x := child.trap_x.set 10 0 }
  ((child.pid : Int), child2, TaskManager.add queue child2)

/-- Claim C8: `sys_fork` returns the new child's pid to the parent,
sets the child's trap-context register `x[10]` (the syscall-return
slot) to 0 so the child observes fork returning 0, and enqueues the
child in the ready queue. The hypothesis is the trap context's register
file covering register 10 (it has 32 registers). -/
theorem sys_fork_spec (child : TaskControlBlock)
    (queue : List TaskControlBlock) (h10 : 10 < child.trap_x.length) :
    (sys_fork child queue).1 = (child.pid : Int) ∧
    (sys_fork child queue).2.1.trap_x[10]? = some 0 ∧
    (sys_fork child queue).2.1 ∈ (sys_fork child queue).2.2 := by
  refine ⟨rfl, ?_, ?_⟩
  · show (child.trap_x.set 10 0)[10]? = some 0
    rw [List.getElem?_eq_getElem (by simpa using h10)]
    simp [List.getElem_set]
  · show _ ∈ TaskManager.add queue _
    unfold TaskManager.add
    split
    · exact List.mem_cons_self _ _
    · simp only [List.mem_append, List.mem_singleton]
      exact Or.inr rfl

/-- Witness for `sys_fork_spec`: a concrete child with pid 7 and a
32-register trap context. -/
theorem sys_fork_spec_witness :
    10 < (List.replicate 32 9).length ∧
    ((sys_fork ⟨7, List.replicate 32 9, TaskStatus.Ready, 0,
        ⟨[], 0, ⟨0, 16, 0⟩⟩⟩ []).1 = ((7 : Nat) : Int) ∧
      (sys_fork ⟨7, List.replicate 32 9, TaskStatus.Ready, 0,
        ⟨[], 0, ⟨0, 16, 0⟩⟩⟩ []).2.1.trap_x[10]? = some 0 ∧
      (sys_fork ⟨7, List.replicate 32 9, TaskStatus.Ready, 0,
          ⟨[], 0, ⟨0, 16, 0⟩⟩⟩ []).2.1 ∈
        (sys_fork ⟨7, List.replicate 32 9, TaskStatus.Ready, 0,
          ⟨[], 0, ⟨0, 16, 0⟩⟩⟩ []).2.2) :=
  ⟨by decide,
    sys_fork_spec ⟨7, List.replicate 32 9, TaskStatus.Ready, 0,
      ⟨[], 0, ⟨0, 16, 0⟩⟩⟩ [] (by decide)⟩
